import Mathlib

/-!
# go-circuitbreaker: a verification development

Shallow embedding of `circuitbreaker.go` (package `circuitbreaker`).

Modelling conventions.

* `uint64` fields are natural numbers; the increment `x++` is written
  `(x + 1) % 2 ^ 64`, and a value of the Go type is a natural number below
  `2 ^ 64` (theorems that depend on the range carry it as a hypothesis).
* `time.Duration` is an integer (nanoseconds).
* The mutexes are not modelled: every method is a sequential state
  transformer on the breaker record.
* The external timer facility `afterFunc(d, fn)` is modelled by the handle it
  returns, a record of the two arguments, and by a log of the calls a method
  makes to the facility (`timerCall`): every method returns the new breaker
  together with the calls it made, in order.
* The callback handed to `afterFunc` is the method value `cb.timeout`; it is
  represented by a tag (`callback.cbTimeout`) and run by `callback.call`.
* The controllable timer of `circuitbreaker_test.go` is the record `testTimer`;
  its `int64` accumulator wraps around (`wrapInt64`). `FastForward` acts on the
  timer together with the breaker its callback is bound to.
-/

namespace circuitbreaker

/-- Number of values of the Go type `uint64`. -/
def uint64Size : Nat := 2 ^ 64

/-- Go `time.Duration` (an `int64` count of nanoseconds). -/
abbrev Duration := Int

/-- Go `time.Second`. -/
def Second : Duration := 1000000000

/-- The three constants of `type state int8`. -/
inductive state where
  | closed
  | halfopened
  | opened
  deriving DecidableEq, Repr

/-- The method `state.String`. -/
def state.String : state → String
  | .closed => "closed"
  | .halfopened => "halfopened"
  | .opened => "opened"

/-- The struct `counter` (without its mutex). -/
structure counter where
  success : Nat
  failure : Nat
  deriving DecidableEq, Repr

/-- The method `counter.ResetSuccess`: `cnt.success = 0`. -/
def counter.ResetSuccess (cnt : counter) : counter :=
  { cnt with success := 0 }

/-- The method `counter.Success`: `cnt.success++; return cnt.success`. -/
def counter.Success (cnt : counter) : counter × Nat :=
  let cnt1 : counter := { cnt with success := (cnt.success + 1) % uint64Size }
  (cnt1, cnt1.success)

/-- The method `counter.ResetFail`: `cnt.failure = 0`. -/
def counter.ResetFail (cnt : counter) : counter :=
  { cnt with failure := 0 }

/-- The method `counter.Fail`: `cnt.failure++; return cnt.failure`. -/
def counter.Fail (cnt : counter) : counter × Nat :=
  let cnt1 : counter := { cnt with failure := (cnt.failure + 1) % uint64Size }
  (cnt1, cnt1.failure)

/-- The `func()` values handed to `afterFunc`. The only one the package ever
passes is the method value `cb.timeout`. -/
inductive callback where
  | cbTimeout
  deriving DecidableEq, Repr

/-- A value of the interface `timer`: the handle returned by
`afterFunc(d, fn)`, identified by the arguments of the call. -/
structure timer where
  d : Duration
  fn : callback
  deriving DecidableEq, Repr

/-- The package variable `afterFunc`: schedules `fn` after `d` and returns the
handle. -/
def afterFunc (d : Duration) (fn : callback) : timer :=
  { d := d, fn := fn }

/-- Calls made to the external timer facility. -/
inductive timerCall where
  | schedule (d : Duration) (fn : callback)
  | stop (t : timer)
  deriving DecidableEq, Repr

/-- The struct `CircuitBreaker` (without its mutex); a nil `timer` is `none`. -/
structure CircuitBreaker where
  counter : circuitbreaker.counter
  state : circuitbreaker.state
  successThreshold : Nat
  failureThreshold : Nat
  timeoutDuration : Duration
  timer : Option circuitbreaker.timer
  deriving DecidableEq, Repr

/-- The constant `DefaultSuccessThreshold`. -/
def DefaultSuccessThreshold : Nat := 3

/-- The constant `DefaultFailureThreshold`. -/
def DefaultFailureThreshold : Nat := 3

/-- The constant `DefaultTimeoutDuration`. -/
def DefaultTimeoutDuration : Duration := 30 * Second

/-- The type `Option` of the package: `func(cb *CircuitBreaker)`. -/
abbrev CBOption := CircuitBreaker → CircuitBreaker

/-- The function `New`: the defaults (every other field has its zero value),
then the options applied in order. -/
def New (options : List CBOption) : CircuitBreaker :=
  options.foldl (fun cb opt => opt cb)
    { counter := { success := 0, failure := 0 }
      state := .closed
      successThreshold := DefaultSuccessThreshold
      failureThreshold := DefaultFailureThreshold
      timeoutDuration := DefaultTimeoutDuration
      timer := none }

/-- The method `IsAvail`. -/
def IsAvail (cb : CircuitBreaker) : Bool :=
  cb.state == .closed || cb.state == .halfopened

/-- The method `Fail`. -/
def Fail (cb : CircuitBreaker) : CircuitBreaker × List timerCall :=
  match cb.state with
  | .opened => (cb, [])
  | .halfopened =>
    ({ cb with
        state := .opened
        timer := some (afterFunc cb.timeoutDuration .cbTimeout) },
      [.schedule cb.timeoutDuration .cbTimeout])
  | .closed =>
    let r := cb.counter.Fail
    let cb1 : CircuitBreaker := { cb with counter := r.1 }
    if r.2 ≥ cb1.failureThreshold then
      ({ cb1 with
          state := .opened
          timer := some (afterFunc cb1.timeoutDuration .cbTimeout) },
        [.schedule cb1.timeoutDuration .cbTimeout])
    else (cb1, [])

/-- The method `Success`. -/
def Success (cb : CircuitBreaker) : CircuitBreaker × List timerCall :=
  match cb.state with
  | .opened => (cb, [])
  | .closed => (cb, [])
  | .halfopened =>
    let r := cb.counter.Success
    let cb1 : CircuitBreaker := { cb with counter := r.1 }
    if r.2 ≥ cb1.successThreshold then
      ({ cb1 with counter := cb1.counter.ResetFail, state := .closed }, [])
    else (cb1, [])

/-- The method `timeout`, the handler run when the cooldown timer fires. -/
def timeout (cb : CircuitBreaker) : CircuitBreaker × List timerCall :=
  ({ cb with counter := cb.counter.ResetSuccess, state := .halfopened, timer := none }, [])

/-- The method `Reset`. -/
def Reset (cb : CircuitBreaker) : CircuitBreaker × List timerCall :=
  let r : CircuitBreaker × List timerCall :=
    match cb.timer with
    | some t => ({ cb with timer := none }, [.stop t])
    | none => (cb, [])
  ({ r.1 with counter := r.1.counter.ResetSuccess.ResetFail, state := .closed }, r.2)

/-- The function `WithSuccessThreshold`. -/
def WithSuccessThreshold (threshold : Nat) : CBOption :=
  fun cb => { cb with successThreshold := threshold }

/-- The function `WithFailureThreshold`. -/
def WithFailureThreshold (threshold : Nat) : CBOption :=
  fun cb => { cb with failureThreshold := threshold }

/-- The function `WithTimeoutDuration`. -/
def WithTimeoutDuration (d : Duration) : CBOption :=
  fun cb => { cb with timeoutDuration := d }

/-- Running a scheduled callback on the breaker it is bound to. -/
def callback.call : callback → CircuitBreaker → CircuitBreaker × List timerCall
  | .cbTimeout, cb => timeout cb

/-! ## Driving the breaker with a sequence of signals -/

/-- The arguments of one of the three exported option constructors. -/
inductive config where
  | successThreshold (threshold : Nat)
  | failureThreshold (threshold : Nat)
  | timeoutDuration (d : Duration)
  deriving DecidableEq, Repr

/-- The option a `config` stands for. -/
def config.toOption : config → CBOption
  | .successThreshold n => WithSuccessThreshold n
  | .failureThreshold n => WithFailureThreshold n
  | .timeoutDuration d => WithTimeoutDuration d

/-- `New` called with the options described by `cfgs`. -/
def NewWith (cfgs : List config) : CircuitBreaker :=
  New (cfgs.map config.toOption)

/-- The things that can happen to a breaker: the three mutating methods and
the firing of the pending cooldown timer. -/
inductive signal where
  | fail
  | success
  | reset
  | timerFired
  deriving DecidableEq, Repr

/-- One step. The timer can fire only while a handle is pending; firing runs
the callback stored in the handle. -/
def step (sig : signal) (cb : CircuitBreaker) : Option (CircuitBreaker × List timerCall) :=
  match sig with
  | .fail => some (Fail cb)
  | .success => some (Success cb)
  | .reset => some (Reset cb)
  | .timerFired =>
    match cb.timer with
    | some t => some (t.fn.call cb)
    | none => none

/-- A sequence of steps, left to right; `none` when a step is not enabled. -/
def run : List signal → CircuitBreaker → Option CircuitBreaker
  | [], cb => some cb
  | sig :: sigs, cb =>
    match step sig cb with
    | some r => run sigs r.1
    | none => none

/-- The breaker after `n` consecutive calls of `Fail`. -/
def failN : Nat → CircuitBreaker → CircuitBreaker
  | 0, cb => cb
  | n + 1, cb => failN n (Fail cb).1

/-- The breaker after `n` consecutive calls of `Success`. -/
def successN : Nat → CircuitBreaker → CircuitBreaker
  | 0, cb => cb
  | n + 1, cb => successN n (Success cb).1

/-- The arguments fit their Go types (`uint64` for the thresholds). -/
def config.inRange : config → Bool
  | .successThreshold n => decide (n < uint64Size)
  | .failureThreshold n => decide (n < uint64Size)
  | .timeoutDuration _ => true

/-- The success threshold carried by the last `WithSuccessThreshold` of a list
of options, if there is one. -/
def lastSuccessThreshold (cfgs : List config) : Option Nat :=
  (cfgs.filterMap fun c =>
    match c with
    | .successThreshold n => some n
    | _ => none).getLast?

/-- The failure threshold carried by the last `WithFailureThreshold` of a list
of options, if there is one. -/
def lastFailureThreshold (cfgs : List config) : Option Nat :=
  (cfgs.filterMap fun c =>
    match c with
    | .failureThreshold n => some n
    | _ => none).getLast?

/-- The duration carried by the last `WithTimeoutDuration` of a list of
options, if there is one. -/
def lastTimeoutDuration (cfgs : List config) : Option Duration :=
  (cfgs.filterMap fun c =>
    match c with
    | .timeoutDuration d => some d
    | _ => none).getLast?

/-- What a caller can see of a breaker that does not involve its counters:
the state, the answer of `IsAvail` and whether a timer is pending. -/
def observe (cb : CircuitBreaker) : state × Bool × Bool :=
  (cb.state, IsAvail cb, cb.timer.isSome)

/-- Both thresholds fit `uint64`; while closed the failure counter is below
the failure threshold (below 1 when the threshold is 0), and while halfopened
the success counter is below the success threshold (below 1 when it is 0). -/
def counterInv (cb : CircuitBreaker) : Prop :=
  cb.successThreshold < uint64Size ∧ cb.failureThreshold < uint64Size ∧
  (cb.state = .closed → cb.counter.failure < max cb.failureThreshold 1) ∧
  (cb.state = .halfopened → cb.counter.success < max cb.successThreshold 1)

instance (cb : CircuitBreaker) : Decidable (counterInv cb) := by
  unfold counterInv; infer_instance

/-- Two breakers that differ at most in their thresholds, and there only by
one having 0 where the other has 1. -/
def sameUpToZero (a b : CircuitBreaker) : Prop :=
  a.state = b.state ∧ a.counter = b.counter ∧ a.timer = b.timer ∧
  a.timeoutDuration = b.timeoutDuration ∧
  max a.failureThreshold 1 = max b.failureThreshold 1 ∧
  max a.successThreshold 1 = max b.successThreshold 1

instance (a b : CircuitBreaker) : Decidable (sameUpToZero a b) := by
  unfold sameUpToZero; infer_instance

/-- Two breakers that agree on everything except, possibly, the failure
counter. -/
def agreeExceptFailure (a b : CircuitBreaker) : Prop :=
  a.state = b.state ∧ a.counter.success = b.counter.success ∧
  a.successThreshold = b.successThreshold ∧ a.failureThreshold = b.failureThreshold ∧
  a.timeoutDuration = b.timeoutDuration ∧ a.timer = b.timer

instance (a b : CircuitBreaker) : Decidable (agreeExceptFailure a b) := by
  unfold agreeExceptFailure; infer_instance

/-- Two breakers that agree on everything except, possibly, the success
counter. -/
def agreeExceptSuccess (a b : CircuitBreaker) : Prop :=
  a.state = b.state ∧ a.counter.failure = b.counter.failure ∧
  a.successThreshold = b.successThreshold ∧ a.failureThreshold = b.failureThreshold ∧
  a.timeoutDuration = b.timeoutDuration ∧ a.timer = b.timer

instance (a b : CircuitBreaker) : Decidable (agreeExceptSuccess a b) := by
  unfold agreeExceptSuccess; infer_instance

/-! ## The controllable timer of the test file -/

/-- Two's-complement wrap-around of Go `int64` arithmetic. -/
def wrapInt64 (x : Int) : Int :=
  (x + 2 ^ 63) % 2 ^ 64 - 2 ^ 63

/-- The struct `testTimer` of `circuitbreaker_test.go`. -/
structure testTimer where
  d : Duration
  cur : Duration
  afterFunc : callback
  deriving DecidableEq, Repr

/-- The function `testAfterFunc`, which the test file installs as `afterFunc`:
the fields `d` and `afterFunc` are set, `cur` has its zero value. -/
def testAfterFunc (d : Duration) (fn : callback) : testTimer :=
  { d := d, cur := 0, afterFunc := fn }

/-- The type assertion `cb.timer.(*testTimer)` made right after the handle was
created by the installed `testAfterFunc`. -/
def timer.asTestTimer (t : timer) : testTimer :=
  testAfterFunc t.d t.fn

/-- The method `testTimer.Stop`: the assignment `t = &testTimer{}` rebinds the
local receiver only, so the timer is left as it was; the result is `true`. -/
def testTimer.Stop (t : testTimer) : testTimer × Bool :=
  (t, true)

/-- The method `testTimer.FastForward`, on the timer and the breaker its
callback is bound to: `t.cur += d`, then the callback and `Stop` when
`t.cur >= t.d`. -/
def testTimer.FastForward (t : testTimer) (d : Duration) (cb : CircuitBreaker) :
    testTimer × CircuitBreaker :=
  let t1 : testTimer := { t with cur := wrapInt64 (t.cur + d) }
  if t1.cur ≥ t1.d then
    let cb1 := (t1.afterFunc.call cb).1
    (t1.Stop.1, cb1)
  else (t1, cb)

/-- A sequence of `FastForward` calls on the same timer, left to right. -/
def fastForwards : List Duration → testTimer × CircuitBreaker → testTimer × CircuitBreaker
  | [], w => w
  | d :: ds, w => fastForwards ds (w.1.FastForward d w.2)

/-- The helper `assertState` of the test file: `true` when no error is
reported. -/
def assertState (cb : CircuitBreaker) (st : state) : Bool :=
  if cb.state != st then false
  else if st == .closed || st == .halfopened then IsAvail cb
  else !IsAvail cb

/-- The test `TestCircuitBreaker`, statement by statement: `true` when every
assertion of the test passes. -/
def TestCircuitBreaker : Bool :=
  let cb := New []
  let ok := assertState cb .closed
  let cb := (Fail cb).1
  let ok := ok && assertState cb .closed
  let cb := (Fail cb).1
  let ok := ok && assertState cb .closed
  let cb := (Fail cb).1
  let ok := ok && assertState cb .opened
  match cb.timer with
  | none => false
  | some h =>
    let w := h.asTestTimer.FastForward (29 * Second) cb
    let ok := ok && assertState w.2 .opened
    let w := w.1.FastForward (1 * Second) w.2
    let ok := ok && assertState w.2 .halfopened
    let ok := ok && w.2.counter.success == 0
    let cb := (Fail w.2).1
    let ok := ok && assertState cb .opened
    match cb.timer with
    | none => false
    | some h =>
      let w := h.asTestTimer.FastForward (30 * Second) cb
      let ok := ok && assertState w.2 .halfopened
      let cb := (Success w.2).1
      let cb := (Success cb).1
      let ok := ok && assertState cb .halfopened
      let cb := (Success cb).1
      let ok := ok && assertState cb .closed
      let ok := ok && cb.timer == none
      ok && cb.counter.failure == 0

/-! ## Basic facts about the construction -/

theorem foldl_toOption_frame (cfgs : List config) (cb : CircuitBreaker) :
    ((cfgs.map config.toOption).foldl (fun cb opt => opt cb) cb).state = cb.state ∧
    ((cfgs.map config.toOption).foldl (fun cb opt => opt cb) cb).counter = cb.counter ∧
    ((cfgs.map config.toOption).foldl (fun cb opt => opt cb) cb).timer = cb.timer := by
  induction cfgs generalizing cb with
  | nil => simp
  | cons c cs ih =>
    simp only [List.map_cons, List.foldl_cons]
    obtain ⟨h1, h2, h3⟩ := ih (c.toOption cb)
    rw [h1, h2, h3]
    cases c <;> simp [config.toOption, WithSuccessThreshold, WithFailureThreshold,
      WithTimeoutDuration]

theorem NewWith_state (cfgs : List config) : (NewWith cfgs).state = .closed :=
  (foldl_toOption_frame cfgs _).1

theorem NewWith_counter (cfgs : List config) :
    (NewWith cfgs).counter = { success := 0, failure := 0 } :=
  (foldl_toOption_frame cfgs _).2.1

theorem NewWith_timer (cfgs : List config) : (NewWith cfgs).timer = none :=
  (foldl_toOption_frame cfgs _).2.2

/-! ## Single transitions -/

/-- C1: for every breaker, `IsAvail` is true exactly when the state is closed
or halfopened, and false exactly when the state is opened. -/
theorem IsAvail_iff (cb : CircuitBreaker) :
    (IsAvail cb = true ↔ cb.state = .closed ∨ cb.state = .halfopened) ∧
    (IsAvail cb = false ↔ cb.state = .opened) := by
  cases h : cb.state <;> simp [IsAvail, h]

/-- C3: on a closed breaker whose failure counter `c` is below `2^64 - 1`,
`Fail` stores `c + 1` in the failure counter and leaves the success counter
alone; when `c + 1` reaches the failure threshold the breaker becomes opened
and exactly one timer is scheduled, for `timeoutDuration` and with the timeout
handler as callback, whose handle is stored; otherwise the breaker stays closed,
no call is made to the timer facility and the handle is untouched. -/
theorem Fail_closed (cb : CircuitBreaker) (hs : cb.state = .closed)
    (hc : cb.counter.failure < uint64Size - 1) :
    (Fail cb).1.counter.failure = cb.counter.failure + 1 ∧
    (Fail cb).1.counter.success = cb.counter.success ∧
    (cb.counter.failure + 1 ≥ cb.failureThreshold →
      (Fail cb).1.state = .opened ∧
      (Fail cb).2 = [.schedule cb.timeoutDuration .cbTimeout] ∧
      (Fail cb).1.timer = some { d := cb.timeoutDuration, fn := .cbTimeout }) ∧
    (¬ cb.counter.failure + 1 ≥ cb.failureThreshold →
      (Fail cb).1.state = .closed ∧ (Fail cb).2 = [] ∧ (Fail cb).1.timer = cb.timer) := by
  have hmod : (cb.counter.failure + 1) % uint64Size = cb.counter.failure + 1 :=
    Nat.mod_eq_of_lt (by omega)
  by_cases hth : cb.counter.failure + 1 ≥ cb.failureThreshold
  · simp [Fail, hs, counter.Fail, hmod, hth, afterFunc]
  · simp [Fail, hs, counter.Fail, hmod, hth]

theorem Fail_closed_witness :
    (New []).state = .closed ∧
    (Fail (New [])).1.counter.failure = 1 ∧
    (Fail (New [])).1.counter.success = 0 ∧
    (Fail (New [])).1.state = .closed ∧
    (Fail (New [])).2 = [] ∧
    (Fail (New [WithFailureThreshold 1])).1.state = .opened ∧
    (Fail (New [WithFailureThreshold 1])).2 = [.schedule (30 * Second) .cbTimeout] :=
  ⟨rfl, (Fail_closed (New []) rfl (by decide)).1, (Fail_closed (New []) rfl (by decide)).2.1,
    ((Fail_closed (New []) rfl (by decide)).2.2.2 (by decide)).1,
    ((Fail_closed (New []) rfl (by decide)).2.2.2 (by decide)).2.1,
    ((Fail_closed (New [WithFailureThreshold 1]) rfl (by decide)).2.2.1 (by decide)).1,
    ((Fail_closed (New [WithFailureThreshold 1]) rfl (by decide)).2.2.1 (by decide)).2.1⟩

/-- C4: on a halfopened breaker, whatever its counters and thresholds, one
`Fail` makes it opened and schedules one new timer for `timeoutDuration` (its
handle is stored); both counters are unchanged. -/
theorem Fail_halfopened (cb : CircuitBreaker) (hs : cb.state = .halfopened) :
    (Fail cb).1.state = .opened ∧
    (Fail cb).2 = [.schedule cb.timeoutDuration .cbTimeout] ∧
    (Fail cb).1.timer = some { d := cb.timeoutDuration, fn := .cbTimeout } ∧
    (Fail cb).1.counter.failure = cb.counter.failure ∧
    (Fail cb).1.counter.success = cb.counter.success := by
  simp [Fail, hs, afterFunc]

theorem Fail_halfopened_witness :
    (Fail (timeout (New [])).1).1.state = .opened ∧
    (Fail (timeout (New [])).1).2 = [.schedule (timeout (New [])).1.timeoutDuration .cbTimeout] ∧
    (Fail (timeout (New [])).1).1.timer =
      some { d := (timeout (New [])).1.timeoutDuration, fn := .cbTimeout } ∧
    (Fail (timeout (New [])).1).1.counter.failure = (timeout (New [])).1.counter.failure ∧
    (Fail (timeout (New [])).1).1.counter.success = (timeout (New [])).1.counter.success :=
  Fail_halfopened (timeout (New [])).1 rfl

/-- C5: when the cooldown timer of an opened breaker fires, that is, when the
timeout handler runs, the breaker becomes halfopened, its success counter is 0
and its timer handle is nil; the failure counter, both thresholds and
`timeoutDuration` are unchanged, and the handler makes no call to the timer
facility. -/
theorem timeout_opened (cb : CircuitBreaker) (hs : cb.state = .opened) :
    (∀ t, cb.timer = some t → step .timerFired cb = some (timeout cb)) ∧
    (timeout cb).1.state = .halfopened ∧
    (timeout cb).1.counter.success = 0 ∧
    (timeout cb).1.timer = none ∧
    (timeout cb).1.counter.failure = cb.counter.failure ∧
    (timeout cb).1.successThreshold = cb.successThreshold ∧
    (timeout cb).1.failureThreshold = cb.failureThreshold ∧
    (timeout cb).1.timeoutDuration = cb.timeoutDuration ∧
    (timeout cb).2 = [] := by
  refine ⟨?_, by simp [timeout, counter.ResetSuccess]⟩
  have _ := hs
  intro t ht
  cases hfn : t.fn
  simp [step, ht, hfn, callback.call]

theorem timeout_opened_witness :
    (failN 3 (New [])).state = .opened ∧
    step .timerFired (failN 3 (New [])) = some (timeout (failN 3 (New []))) ∧
    (timeout (failN 3 (New []))).1.state = .halfopened ∧
    (timeout (failN 3 (New []))).1.counter = { success := 0, failure := 3 } :=
  ⟨by decide,
    (timeout_opened (failN 3 (New [])) (by decide)).1
      { d := 30 * Second, fn := .cbTimeout } (by decide),
    by decide, by decide⟩

/-- C7: on an opened breaker both `Fail` and `Success` are no-ops: they return
the breaker unchanged in every field (state, both counters, both thresholds,
`timeoutDuration`, pending timer handle) and make no call to the timer
facility. -/
theorem Fail_Success_opened (cb : CircuitBreaker) (hs : cb.state = .opened) :
    Fail cb = (cb, []) ∧ Success cb = (cb, []) := by
  simp [Fail, Success, hs]

theorem Fail_Success_opened_witness :
    Fail (failN 3 (New [])) = (failN 3 (New []), []) ∧
    Success (failN 3 (New [])) = (failN 3 (New []), []) :=
  Fail_Success_opened (failN 3 (New [])) (by decide)

/-- C8: on a closed breaker `Success` changes nothing: it returns the breaker
unchanged in every field (state, both counters, both thresholds,
`timeoutDuration`, timer handle) and makes no call to the timer facility. -/
theorem Success_closed (cb : CircuitBreaker) (hs : cb.state = .closed) :
    Success cb = (cb, []) := by
  simp [Success, hs]

theorem Success_closed_witness : Success (New []) = (New [], []) :=
  Success_closed (New []) rfl

/-- C9: from every breaker, `Reset` yields state closed, both counters 0 and a
nil timer handle, with both thresholds and `timeoutDuration` unchanged; and
`Reset` is idempotent: a second `Reset` returns exactly the breaker the first
one returned (and has no timer left to stop). -/
theorem Reset_spec (cb : CircuitBreaker) :
    (Reset cb).1.state = .closed ∧
    (Reset cb).1.counter.success = 0 ∧
    (Reset cb).1.counter.failure = 0 ∧
    (Reset cb).1.timer = none ∧
    (Reset cb).1.successThreshold = cb.successThreshold ∧
    (Reset cb).1.failureThreshold = cb.failureThreshold ∧
    (Reset cb).1.timeoutDuration = cb.timeoutDuration ∧
    (Reset (Reset cb).1).1 = (Reset cb).1 ∧
    (Reset (Reset cb).1).2 = [] := by
  cases ht : cb.timer <;>
    simp [Reset, ht, counter.ResetSuccess, counter.ResetFail]

/-! ## Repeated signals -/

theorem failN_add (a b : Nat) (cb : CircuitBreaker) :
    failN (a + b) cb = failN b (failN a cb) := by
  induction a generalizing cb with
  | zero => simp [failN]
  | succ a ih => rw [Nat.succ_add]; exact ih (Fail cb).1

theorem failN_opened (n : Nat) (cb : CircuitBreaker) (hs : cb.state = .opened) :
    failN n cb = cb := by
  induction n with
  | zero => rfl
  | succ n ih => simp [failN, Fail, hs, ih]

theorem failN_below (n : Nat) (cb : CircuitBreaker) (hs : cb.state = .closed)
    (hf : cb.failureThreshold < uint64Size)
    (hn : cb.counter.failure + n < cb.failureThreshold) :
    failN n cb = { cb with counter := { cb.counter with failure := cb.counter.failure + n } } := by
  induction n generalizing cb with
  | zero => rfl
  | succ n ih =>
    have hmod : (cb.counter.failure + 1) % uint64Size = cb.counter.failure + 1 :=
      Nat.mod_eq_of_lt (by omega)
    have hlt : ¬ cb.counter.failure + 1 ≥ cb.failureThreshold := by omega
    have hF : (Fail cb).1 =
        { cb with counter := { cb.counter with failure := cb.counter.failure + 1 } } := by
      simp [Fail, hs, counter.Fail, hmod, hlt]
    simp only [failN]
    rw [ih (Fail cb).1 (by rw [hF]; exact hs) (by rw [hF]; exact hf) (by rw [hF]; simp; omega), hF]
    simp [Nat.add_assoc, Nat.add_comm 1 n]

theorem failN_threshold (cb : CircuitBreaker) (hs : cb.state = .closed)
    (hc : cb.counter.failure = 0) (hf1 : 1 ≤ cb.failureThreshold)
    (hf : cb.failureThreshold < uint64Size) :
    (failN cb.failureThreshold cb).state = .opened := by
  have hsplit : cb.failureThreshold = (cb.failureThreshold - 1) + 1 := by omega
  rw [hsplit, failN_add, failN_below _ cb hs hf (by omega)]
  have hmod : (cb.failureThreshold - 1 + 1) % uint64Size = cb.failureThreshold - 1 + 1 :=
    Nat.mod_eq_of_lt (by omega)
  have hle : cb.failureThreshold ≤ cb.failureThreshold - 1 + 1 := by omega
  simp [failN, Fail, hs, counter.Fail, hc, hmod, hle]

theorem successN_add (a b : Nat) (cb : CircuitBreaker) :
    successN (a + b) cb = successN b (successN a cb) := by
  induction a generalizing cb with
  | zero => simp [successN]
  | succ a ih => rw [Nat.succ_add]; exact ih (Success cb).1

theorem successN_closed (n : Nat) (cb : CircuitBreaker) (hs : cb.state = .closed) :
    successN n cb = cb := by
  induction n with
  | zero => rfl
  | succ n ih => simp [successN, Success, hs, ih]

theorem successN_below (n : Nat) (cb : CircuitBreaker) (hs : cb.state = .halfopened)
    (hf : cb.successThreshold < uint64Size)
    (hn : cb.counter.success + n < cb.successThreshold) :
    successN n cb = { cb with counter := { cb.counter with success := cb.counter.success + n } } := by
  induction n generalizing cb with
  | zero => rfl
  | succ n ih =>
    have hmod : (cb.counter.success + 1) % uint64Size = cb.counter.success + 1 :=
      Nat.mod_eq_of_lt (by omega)
    have hlt : ¬ cb.counter.success + 1 ≥ cb.successThreshold := by omega
    have hS : (Success cb).1 =
        { cb with counter := { cb.counter with success := cb.counter.success + 1 } } := by
      simp [Success, hs, counter.Success, hmod, hlt]
    simp only [successN]
    rw [ih (Success cb).1 (by rw [hS]; exact hs) (by rw [hS]; exact hf)
      (by rw [hS]; simp; omega), hS]
    simp [Nat.add_assoc, Nat.add_comm 1 n]

theorem successN_threshold (cb : CircuitBreaker) (hs : cb.state = .halfopened)
    (hc : cb.counter.success = 0) (hf1 : 1 ≤ cb.successThreshold)
    (hf : cb.successThreshold < uint64Size) :
    (successN cb.successThreshold cb).state = .closed ∧
    (successN cb.successThreshold cb).counter.failure = 0 := by
  have hsplit : cb.successThreshold = (cb.successThreshold - 1) + 1 := by omega
  rw [hsplit, successN_add, successN_below _ cb hs hf (by omega)]
  have hmod : (cb.successThreshold - 1 + 1) % uint64Size = cb.successThreshold - 1 + 1 :=
    Nat.mod_eq_of_lt (by omega)
  have hle : cb.successThreshold ≤ cb.successThreshold - 1 + 1 := by omega
  simp [successN, Success, hs, counter.Success, hc, hmod, counter.ResetFail, hle]

/-- C2: for a breaker freshly built by `New` from the exported options, with
failure threshold `f` (a `uint64`, at least 1): after exactly `n` calls of
`Fail` and nothing else the state is opened if and only if `n ≥ f`; it is still
closed after `f - 1` calls and opened after the `f`-th. -/
theorem failN_fresh (cfgs : List config) (f n : Nat) (hf1 : 1 ≤ f) (hf : f < uint64Size)
    (hth : (NewWith cfgs).failureThreshold = f) :
    ((failN n (NewWith cfgs)).state = .opened ↔ f ≤ n) ∧
    (failN (f - 1) (NewWith cfgs)).state = .closed ∧
    (failN f (NewWith cfgs)).state = .opened := by
  have hs := NewWith_state cfgs
  have hc : (NewWith cfgs).counter.failure = 0 := by rw [NewWith_counter]
  subst hth
  have hopen := failN_threshold (NewWith cfgs) hs hc hf1 hf
  have hbelow : ∀ m, m < (NewWith cfgs).failureThreshold →
      (failN m (NewWith cfgs)).state = .closed := by
    intro m hm
    rw [failN_below m _ hs hf (by omega)]
    exact hs
  refine ⟨?_, hbelow _ (by omega), hopen⟩
  constructor
  · intro h
    by_contra hlt
    rw [hbelow n (by omega)] at h
    exact absurd h (by decide)
  · intro hle
    obtain ⟨m, rfl⟩ := Nat.exists_eq_add_of_le hle
    rw [failN_add, failN_opened m _ hopen]
    exact hopen

theorem failN_fresh_witness :
    ((failN 5 (NewWith [.failureThreshold 2])).state = .opened ↔ 2 ≤ 5) ∧
    (failN (2 - 1) (NewWith [.failureThreshold 2])).state = .closed ∧
    (failN 2 (NewWith [.failureThreshold 2])).state = .opened :=
  failN_fresh [.failureThreshold 2] 2 5 (by decide) (by decide) rfl

/-- C6: for a halfopened breaker whose success counter is 0 and whose success
threshold is `s` (a `uint64`, at least 1): after exactly `k` calls of `Success`
and nothing else the state is closed if and only if `k ≥ s`, and it is
halfopened when `k < s`; after the `s`-th call, the one that closes it, the
failure counter is 0, and it is still 0 after any further calls. -/
theorem successN_halfopened (cb : CircuitBreaker) (s k : Nat) (hs1 : 1 ≤ s)
    (hs : s < uint64Size) (hst : cb.state = .halfopened) (hc : cb.counter.success = 0)
    (hth : cb.successThreshold = s) :
    ((successN k cb).state = .closed ↔ s ≤ k) ∧
    (k < s → (successN k cb).state = .halfopened) ∧
    (successN s cb).counter.failure = 0 ∧
    (s ≤ k → (successN k cb).counter.failure = 0) := by
  subst hth
  obtain ⟨hclosed, hzero⟩ := successN_threshold cb hst hc hs1 hs
  have hbelow : ∀ m, m < cb.successThreshold → (successN m cb).state = .halfopened := by
    intro m hm
    rw [successN_below m _ hst hs (by omega)]
    exact hst
  have habove : ∀ m, successN (cb.successThreshold + m) cb = successN cb.successThreshold cb := by
    intro m
    rw [successN_add, successN_closed m _ hclosed]
  refine ⟨⟨?_, ?_⟩, hbelow k, hzero, ?_⟩
  · intro h
    by_contra hlt
    rw [hbelow k (by omega)] at h
    exact absurd h (by decide)
  · intro hle
    obtain ⟨m, rfl⟩ := Nat.exists_eq_add_of_le hle
    rw [habove]
    exact hclosed
  · intro hle
    obtain ⟨m, rfl⟩ := Nat.exists_eq_add_of_le hle
    rw [habove]
    exact hzero

theorem successN_halfopened_witness :
    (timeout (failN 3 (New []))).1.state = .halfopened ∧
    ((successN 2 (timeout (failN 3 (New []))).1).state = .closed ↔ 3 ≤ 2) ∧
    (successN 2 (timeout (failN 3 (New []))).1).state = .halfopened ∧
    (successN 3 (timeout (failN 3 (New []))).1).counter.failure = 0 :=
  ⟨by decide,
    (successN_halfopened (timeout (failN 3 (New []))).1 3 2 (by decide) (by decide)
      (by decide) (by decide) (by decide)).1,
    (successN_halfopened (timeout (failN 3 (New []))).1 3 2 (by decide) (by decide)
      (by decide) (by decide) (by decide)).2.1 (by decide),
    (successN_halfopened (timeout (failN 3 (New []))).1 3 2 (by decide) (by decide)
      (by decide) (by decide) (by decide)).2.2.1⟩

/-! ## The timer invariant -/

theorem step_timer_iff_opened (sig : signal) (cb : CircuitBreaker)
    (r : CircuitBreaker × List timerCall) (hstep : step sig cb = some r)
    (hinv : cb.timer ≠ none ↔ cb.state = .opened) :
    r.1.timer ≠ none ↔ r.1.state = .opened := by
  cases sig with
  | fail =>
    simp only [step, Option.some.injEq] at hstep
    subst hstep
    cases hs : cb.state with
    | opened => simpa [Fail, hs] using hinv
    | halfopened => simp [Fail, hs]
    | closed =>
      have hnone : cb.timer = none := by
        by_contra h
        have := hinv.mp h
        rw [hs] at this
        exact absurd this (by decide)
      by_cases hth : (cb.counter.Fail).2 ≥ cb.failureThreshold
      · simp [Fail, hs, hth]
      · simp [Fail, hs, hth, hnone]
  | success =>
    simp only [step, Option.some.injEq] at hstep
    subst hstep
    cases hs : cb.state with
    | opened => simpa [Success, hs] using hinv
    | closed => simpa [Success, hs] using hinv
    | halfopened =>
      have hnone : cb.timer = none := by
        by_contra h
        have := hinv.mp h
        rw [hs] at this
        exact absurd this (by decide)
      by_cases hth : (cb.counter.Success).2 ≥ cb.successThreshold
      · simp [Success, hs, hth, hnone]
      · simp [Success, hs, hth, hnone]
  | reset =>
    simp only [step, Option.some.injEq] at hstep
    subst hstep
    cases ht : cb.timer <;> simp [Reset, ht]
  | timerFired =>
    cases ht : cb.timer with
    | none => simp [step, ht] at hstep
    | some t =>
      simp only [step, ht, Option.some.injEq] at hstep
      subst hstep
      cases hfn : t.fn
      simp [callback.call, timeout]

theorem run_timer_iff_opened (sigs : List signal) (cb0 cb : CircuitBreaker)
    (hrun : run sigs cb0 = some cb) (hinv : cb0.timer ≠ none ↔ cb0.state = .opened) :
    cb.timer ≠ none ↔ cb.state = .opened := by
  induction sigs generalizing cb0 with
  | nil =>
    simp only [run, Option.some.injEq] at hrun
    subst hrun
    exact hinv
  | cons sig sigs ih =>
    simp only [run] at hrun
    cases hstep : step sig cb0 with
    | none => simp [hstep] at hrun
    | some r =>
      simp only [hstep] at hrun
      exact ih r.1 hrun (step_timer_iff_opened sig cb0 r hstep hinv)

/-- C10: in every state reached from a breaker freshly built by `New` (from
any list of the exported options) by a finite sequence of `Fail`, `Success`,
`Reset` and timer-fired steps, the timer firing only while a handle is pending,
the timer handle is non-nil if and only if the state is opened. -/
theorem reachable_timer_iff_opened (cfgs : List config) (sigs : List signal)
    (cb : CircuitBreaker) (hrun : run sigs (NewWith cfgs) = some cb) :
    cb.timer ≠ none ↔ cb.state = .opened :=
  run_timer_iff_opened sigs (NewWith cfgs) cb hrun
    (by rw [NewWith_timer, NewWith_state]; simp)

theorem reachable_timer_iff_opened_witness :
    run [.fail, .fail, .fail, .timerFired, .fail] (NewWith []) =
      some (Fail (timeout (failN 3 (NewWith []))).1).1 ∧
    ((Fail (timeout (failN 3 (NewWith []))).1).1.timer ≠ none ↔
      (Fail (timeout (failN 3 (NewWith []))).1).1.state = .opened) :=
  ⟨by decide,
    reachable_timer_iff_opened [] [.fail, .fail, .fail, .timerFired, .fail]
      (Fail (timeout (failN 3 (NewWith []))).1).1 (by decide)⟩

/-! ## Construction and options -/

theorem foldl_toOption_fields (cfgs : List config) (cb : CircuitBreaker) :
    ((cfgs.map config.toOption).foldl (fun cb opt => opt cb) cb).successThreshold =
      (lastSuccessThreshold cfgs).getD cb.successThreshold ∧
    ((cfgs.map config.toOption).foldl (fun cb opt => opt cb) cb).failureThreshold =
      (lastFailureThreshold cfgs).getD cb.failureThreshold ∧
    ((cfgs.map config.toOption).foldl (fun cb opt => opt cb) cb).timeoutDuration =
      (lastTimeoutDuration cfgs).getD cb.timeoutDuration := by
  induction cfgs using List.reverseRecOn with
  | nil => simp [lastSuccessThreshold, lastFailureThreshold, lastTimeoutDuration]
  | append_singleton cs c ih =>
    obtain ⟨h1, h2, h3⟩ := ih
    simp only [lastSuccessThreshold, lastFailureThreshold, lastTimeoutDuration] at h1 h2 h3
    cases c <;>
      simp [lastSuccessThreshold, lastFailureThreshold, lastTimeoutDuration, List.filterMap_append,
        List.foldl_append, config.toOption, WithSuccessThreshold, WithFailureThreshold,
        WithTimeoutDuration, h1, h2, h3]

/-- C12 (as amended): `New` without options returns the defaults (success
threshold 3, failure threshold 3, timeout 30 seconds) in state closed with both
counters 0 and a nil timer handle; and for every list of options built from
`WithSuccessThreshold`, `WithFailureThreshold` and `WithTimeoutDuration`, `New`
returns a breaker in state closed with both counters 0 and a nil handle. -/
theorem New_spec (cfgs : List config) :
    New [] =
      { counter := { success := 0, failure := 0 }
        state := .closed
        successThreshold := 3
        failureThreshold := 3
        timeoutDuration := 30 * Second
        timer := none } ∧
    (NewWith cfgs).state = .closed ∧
    (NewWith cfgs).counter.success = 0 ∧
    (NewWith cfgs).counter.failure = 0 ∧
    (NewWith cfgs).timer = none := by
  refine ⟨rfl, NewWith_state cfgs, ?_, ?_, NewWith_timer cfgs⟩ <;> rw [NewWith_counter]

/-- Counterexample to C12 as stated: an option is any function on the breaker, and the one
that calls `Fail` three times makes `New` return an opened breaker with failure
counter 3 and a pending timer. -/
theorem New_custom_option_counterexample :
    (New [fun cb => (Fail (Fail (Fail cb).1).1).1]).state = .opened ∧
    (New [fun cb => (Fail (Fail (Fail cb).1).1).1]).counter.failure = 3 ∧
    (New [fun cb => (Fail (Fail (Fail cb).1).1).1]).timer =
      some { d := 30 * Second, fn := .cbTimeout } := by
  decide

/-- C13: for every list of options built from `WithSuccessThreshold`,
`WithFailureThreshold` and `WithTimeoutDuration`, each of the three configured
fields of the breaker `New` returns is the value carried by the last option of
the list for that field, or the default (3, 3, 30 seconds) when the list has
none; and an option for one field leaves every other field of the breaker as
it was. -/
theorem New_options (cfgs : List config) :
    (NewWith cfgs).successThreshold = (lastSuccessThreshold cfgs).getD 3 ∧
    (NewWith cfgs).failureThreshold = (lastFailureThreshold cfgs).getD 3 ∧
    (NewWith cfgs).timeoutDuration = (lastTimeoutDuration cfgs).getD (30 * Second) ∧
    (∀ n cb, WithSuccessThreshold n cb = { cb with successThreshold := n }) ∧
    (∀ n cb, WithFailureThreshold n cb = { cb with failureThreshold := n }) ∧
    (∀ d cb, WithTimeoutDuration d cb = { cb with timeoutDuration := d }) :=
  ⟨(foldl_toOption_fields cfgs _).1, (foldl_toOption_fields cfgs _).2.1,
    (foldl_toOption_fields cfgs _).2.2, fun _ _ => rfl, fun _ _ => rfl, fun _ _ => rfl⟩

/-! ## Counter overflow -/

/-- C17 (as amended): the increments of the counter have no error case and
wrap around at the ceiling of `uint64`: at `2^64 - 1` the increment stores 0
and returns 0; at every value `v < 2^64 - 1` it stores and returns `v + 1`; in
both cases the other counter is unchanged. -/
theorem counter_increment (cnt : counter) :
    (cnt.success = uint64Size - 1 → cnt.Success = ({ cnt with success := 0 }, 0)) ∧
    (cnt.success < uint64Size - 1 →
      cnt.Success = ({ cnt with success := cnt.success + 1 }, cnt.success + 1)) ∧
    (cnt.failure = uint64Size - 1 → cnt.Fail = ({ cnt with failure := 0 }, 0)) ∧
    (cnt.failure < uint64Size - 1 →
      cnt.Fail = ({ cnt with failure := cnt.failure + 1 }, cnt.failure + 1)) := by
  refine ⟨?_, ?_, ?_, ?_⟩
  · intro h
    have hmod : (cnt.success + 1) % uint64Size = 0 := by
      rw [h]; decide
    simp [counter.Success, hmod]
  · intro h
    have hmod : (cnt.success + 1) % uint64Size = cnt.success + 1 :=
      Nat.mod_eq_of_lt (by omega)
    simp [counter.Success, hmod]
  · intro h
    have hmod : (cnt.failure + 1) % uint64Size = 0 := by
      rw [h]; decide
    simp [counter.Fail, hmod]
  · intro h
    have hmod : (cnt.failure + 1) % uint64Size = cnt.failure + 1 :=
      Nat.mod_eq_of_lt (by omega)
    simp [counter.Fail, hmod]

theorem counter_increment_witness :
    counter.Success { success := 18446744073709551615, failure := 7 } =
      ({ success := 0, failure := 7 }, 0) ∧
    counter.Success { success := 4, failure := 7 } = ({ success := 5, failure := 7 }, 5) ∧
    counter.Fail { success := 7, failure := 18446744073709551615 } =
      ({ success := 7, failure := 0 }, 0) ∧
    counter.Fail { success := 7, failure := 4 } = ({ success := 7, failure := 5 }, 5) :=
  ⟨(counter_increment { success := 18446744073709551615, failure := 7 }).1 (by decide),
    (counter_increment { success := 4, failure := 7 }).2.1 (by decide),
    (counter_increment { success := 7, failure := 18446744073709551615 }).2.2.1 (by decide),
    (counter_increment { success := 7, failure := 4 }).2.2.2 (by decide)⟩

/-- Counterexample to C17 as stated: at `2^64 - 1` both increments wrap to 0 and return 0;
they do not stay at `2^64 - 1`. -/
theorem counter_saturation_counterexample :
    (counter.Success { success := 18446744073709551615, failure := 0 }).1.success = 0 ∧
    (counter.Success { success := 18446744073709551615, failure := 0 }).2 = 0 ∧
    (counter.Success { success := 18446744073709551615, failure := 0 }).2 ≠
      18446744073709551615 ∧
    (counter.Fail { success := 0, failure := 18446744073709551615 }).1.failure = 0 ∧
    (counter.Fail { success := 0, failure := 18446744073709551615 }).2 = 0 ∧
    (counter.Fail { success := 0, failure := 18446744073709551615 }).2 ≠
      18446744073709551615 := by
  decide

/-! ## Counters stay below their thresholds -/

theorem uint64Size_eq : uint64Size = 18446744073709551616 := by decide

theorem foldl_toOption_inRange (cfgs : List config) (cb : CircuitBreaker)
    (hr : ∀ c ∈ cfgs, c.inRange = true)
    (hs : cb.successThreshold < uint64Size) (hf : cb.failureThreshold < uint64Size) :
    ((cfgs.map config.toOption).foldl (fun cb opt => opt cb) cb).successThreshold < uint64Size ∧
    ((cfgs.map config.toOption).foldl (fun cb opt => opt cb) cb).failureThreshold < uint64Size := by
  induction cfgs generalizing cb with
  | nil => exact ⟨hs, hf⟩
  | cons c cs ih =>
    simp only [List.map_cons, List.foldl_cons]
    have hc := hr c (List.mem_cons_self _ _)
    apply ih _ (fun x hx => hr x (List.mem_cons_of_mem _ hx))
    · cases c <;> simp_all [config.toOption, WithSuccessThreshold, WithFailureThreshold,
        WithTimeoutDuration, config.inRange]
    · cases c <;> simp_all [config.toOption, WithSuccessThreshold, WithFailureThreshold,
        WithTimeoutDuration, config.inRange]

theorem NewWith_counterInv (cfgs : List config) (hr : ∀ c ∈ cfgs, c.inRange = true) :
    counterInv (NewWith cfgs) := by
  obtain ⟨h1, h2⟩ := foldl_toOption_inRange cfgs
    { counter := { success := 0, failure := 0 }
      state := .closed
      successThreshold := DefaultSuccessThreshold
      failureThreshold := DefaultFailureThreshold
      timeoutDuration := DefaultTimeoutDuration
      timer := none } hr (by decide) (by decide)
  refine ⟨h1, h2, ?_, ?_⟩
  · intro _
    rw [NewWith_counter]
    exact lt_of_lt_of_le Nat.zero_lt_one (le_max_right _ _)
  · intro h
    rw [NewWith_state] at h
    exact absurd h (by decide)

theorem step_counterInv (sig : signal) (cb : CircuitBreaker)
    (r : CircuitBreaker × List timerCall) (hstep : step sig cb = some r)
    (hinv : counterInv cb) : counterInv r.1 := by
  obtain ⟨hsT, hfT, hcl, hho⟩ := hinv
  have h64 := uint64Size_eq
  cases sig with
  | fail =>
    simp only [step, Option.some.injEq] at hstep
    subst hstep
    cases hs : cb.state with
    | opened => simp [counterInv, Fail, hs, hsT, hfT]
    | halfopened => simp [counterInv, Fail, hs, hsT, hfT]
    | closed =>
      have hlt := hcl hs
      have hmod : (cb.counter.failure + 1) % uint64Size = cb.counter.failure + 1 :=
        Nat.mod_eq_of_lt (by omega)
      by_cases hth : cb.counter.failure + 1 ≥ cb.failureThreshold
      · simp [counterInv, Fail, hs, counter.Fail, hmod, hth, hsT, hfT]
      · simp [counterInv, Fail, hs, counter.Fail, hmod, hth, hsT, hfT]
        omega
  | success =>
    simp only [step, Option.some.injEq] at hstep
    subst hstep
    cases hs : cb.state with
    | opened => simp [counterInv, Success, hs, hsT, hfT]
    | closed => simpa [counterInv, Success, hs, hsT, hfT] using hcl hs
    | halfopened =>
      have hlt := hho hs
      have hmod : (cb.counter.success + 1) % uint64Size = cb.counter.success + 1 :=
        Nat.mod_eq_of_lt (by omega)
      by_cases hth : cb.counter.success + 1 ≥ cb.successThreshold
      · simp [counterInv, Success, hs, counter.Success, hmod, hth, hsT, hfT, counter.ResetFail]
      · simp [counterInv, Success, hs, counter.Success, hmod, hth, hsT, hfT]
        omega
  | reset =>
    simp only [step, Option.some.injEq] at hstep
    subst hstep
    cases ht : cb.timer <;>
      simp [counterInv, Reset, ht, hsT, hfT, counter.ResetSuccess, counter.ResetFail]
  | timerFired =>
    cases ht : cb.timer with
    | none => simp [step, ht] at hstep
    | some t =>
      simp only [step, ht, Option.some.injEq] at hstep
      subst hstep
      cases hfn : t.fn
      simp [counterInv, callback.call, timeout, hsT, hfT, counter.ResetSuccess]

theorem run_counterInv (sigs : List signal) (cb0 cb : CircuitBreaker)
    (hrun : run sigs cb0 = some cb) (hinv : counterInv cb0) : counterInv cb := by
  induction sigs generalizing cb0 with
  | nil =>
    simp only [run, Option.some.injEq] at hrun
    subst hrun
    exact hinv
  | cons sig sigs ih =>
    simp only [run] at hrun
    cases hstep : step sig cb0 with
    | none => simp [hstep] at hrun
    | some r =>
      simp only [hstep] at hrun
      exact ih r.1 hrun (step_counterInv sig cb0 r hstep hinv)

/-- C19: in every state reached from a breaker built by `New` (from any list
of the exported options whose thresholds are `uint64` values) through `Fail`,
`Success`, `Reset` and timer-fired steps: while closed the failure counter is
below `max failureThreshold 1`, and while halfopened the success counter is
below `max successThreshold 1`. Hence the increment `Fail` performs (only while
closed) and the one `Success` performs (only while halfopened) are applied to a
value below `2^64 - 1` and return that value plus one, without wrapping. -/
theorem reachable_counter_bound (cfgs : List config) (sigs : List signal)
    (cb : CircuitBreaker) (hr : ∀ c ∈ cfgs, c.inRange = true)
    (hrun : run sigs (NewWith cfgs) = some cb) :
    (cb.state = .closed → cb.counter.failure < max cb.failureThreshold 1) ∧
    (cb.state = .halfopened → cb.counter.success < max cb.successThreshold 1) ∧
    (cb.state = .closed → cb.counter.failure < uint64Size - 1 ∧
      cb.counter.Fail.2 = cb.counter.failure + 1) ∧
    (cb.state = .halfopened → cb.counter.success < uint64Size - 1 ∧
      cb.counter.Success.2 = cb.counter.success + 1) := by
  obtain ⟨hsT, hfT, hcl, hho⟩ := run_counterInv sigs _ cb hrun (NewWith_counterInv cfgs hr)
  have h64 := uint64Size_eq
  refine ⟨hcl, hho, ?_, ?_⟩
  · intro hs
    have hlt := hcl hs
    have hb : cb.counter.failure < uint64Size - 1 := by omega
    exact ⟨hb, by simp [counter.Fail, Nat.mod_eq_of_lt (show cb.counter.failure + 1 < uint64Size by omega)]⟩
  · intro hs
    have hlt := hho hs
    have hb : cb.counter.success < uint64Size - 1 := by omega
    exact ⟨hb, by simp [counter.Success, Nat.mod_eq_of_lt (show cb.counter.success + 1 < uint64Size by omega)]⟩

/-! ## A threshold of 0 behaves like a threshold of 1 -/

theorem step_sameUpToZero (sig : signal) (a b : CircuitBreaker)
    (hrel : sameUpToZero a b) (hinv : counterInv a) :
    (step sig a = none ∧ step sig b = none) ∨
    ∃ ra rb, step sig a = some ra ∧ step sig b = some rb ∧
      sameUpToZero ra.1 rb.1 ∧ ra.2 = rb.2 := by
  have h64 := uint64Size_eq
  obtain ⟨hsT, hfT, hcl, hho⟩ := hinv
  obtain ⟨⟨sa, fa⟩, sta, sTa, fTa, da, ta⟩ := a
  obtain ⟨⟨sb, fb⟩, stb, sTb, fTb, db, tb⟩ := b
  simp only [sameUpToZero, counter.mk.injEq] at hrel
  obtain ⟨rfl, ⟨rfl, rfl⟩, rfl, rfl, hF, hS⟩ := hrel
  simp only at hsT hfT hcl hho
  cases sig with
  | fail =>
    right
    refine ⟨_, _, rfl, rfl, ?_⟩
    cases sta with
    | opened => simp [Fail, sameUpToZero, hF, hS]
    | halfopened => simp [Fail, sameUpToZero, hF, hS]
    | closed =>
      have hlt := hcl rfl
      have hmod : (fa + 1) % uint64Size = fa + 1 := Nat.mod_eq_of_lt (by omega)
      by_cases hth : fa + 1 ≥ fTa
      · have hth2 : fa + 1 ≥ fTb := by omega
        simp [Fail, counter.Fail, hmod, hth, hth2, sameUpToZero, hF, hS]
      · have hth2 : ¬ fa + 1 ≥ fTb := by omega
        simp [Fail, counter.Fail, hmod, hth, hth2, sameUpToZero, hF, hS]
  | success =>
    right
    refine ⟨_, _, rfl, rfl, ?_⟩
    cases sta with
    | opened => simp [Success, sameUpToZero, hF, hS]
    | closed => simp [Success, sameUpToZero, hF, hS]
    | halfopened =>
      have hlt := hho rfl
      have hmod : (sa + 1) % uint64Size = sa + 1 := Nat.mod_eq_of_lt (by omega)
      by_cases hth : sa + 1 ≥ sTa
      · have hth2 : sa + 1 ≥ sTb := by omega
        simp [Success, counter.Success, hmod, hth, hth2, sameUpToZero, hF, hS, counter.ResetFail]
      · have hth2 : ¬ sa + 1 ≥ sTb := by omega
        simp [Success, counter.Success, hmod, hth, hth2, sameUpToZero, hF, hS]
  | reset =>
    right
    refine ⟨_, _, rfl, rfl, ?_⟩
    cases ta <;> simp [Reset, sameUpToZero, hF, hS, counter.ResetSuccess, counter.ResetFail]
  | timerFired =>
    cases ta with
    | none => left; simp [step]
    | some t =>
      right
      refine ⟨_, _, rfl, rfl, ?_⟩
      cases hfn : t.fn
      simp [callback.call, timeout, sameUpToZero, hF, hS, counter.ResetSuccess]

theorem run_sameUpToZero (sigs : List signal) (a b : CircuitBreaker)
    (hrel : sameUpToZero a b) (hinv : counterInv a) :
    (run sigs a).map (fun cb => (cb.state, cb.counter, cb.timer)) =
      (run sigs b).map (fun cb => (cb.state, cb.counter, cb.timer)) := by
  induction sigs generalizing a b with
  | nil =>
    obtain ⟨h1, h2, h3, _⟩ := hrel
    simp [run, h1, h2, h3]
  | cons sig sigs ih =>
    rcases step_sameUpToZero sig a b hrel hinv with ⟨h1, h2⟩ | ⟨ra, rb, h1, h2, h3, _⟩
    · simp [run, h1, h2]
    · simp only [run, h1, h2]
      exact ih ra.1 rb.1 h3 (step_counterInv sig a ra h1 hinv)

theorem NewWith_append (cfgs : List config) (c : config) :
    NewWith (cfgs ++ [c]) = c.toOption (NewWith cfgs) := by
  simp [NewWith, New, List.foldl_append]

/-- C14: a zero threshold makes the first signal of its kind trigger the
transition: with failure threshold 0 the first `Fail` on a closed breaker opens
it, and with success threshold 0 the first `Success` on a halfopened breaker
closes it. Moreover, for every list of exported options (with `uint64`
thresholds) and every sequence of `Fail`, `Success`, `Reset` and timer-fired
steps, the breaker configured with failure threshold 0 and the one configured
with failure threshold 1 reach the same state, the same counter values and the
same timer handle (or both get stuck on a timer step that is not enabled); and
likewise for the success threshold. -/
theorem zero_threshold (cfgs : List config) (sigs : List signal)
    (hr : ∀ c ∈ cfgs, c.inRange = true) :
    (∀ cb : CircuitBreaker, cb.state = .closed → cb.failureThreshold = 0 →
      (Fail cb).1.state = .opened) ∧
    (∀ cb : CircuitBreaker, cb.state = .halfopened → cb.successThreshold = 0 →
      (Success cb).1.state = .closed) ∧
    (run sigs (NewWith (cfgs ++ [.failureThreshold 0]))).map
        (fun cb => (cb.state, cb.counter, cb.timer)) =
      (run sigs (NewWith (cfgs ++ [.failureThreshold 1]))).map
        (fun cb => (cb.state, cb.counter, cb.timer)) ∧
    (run sigs (NewWith (cfgs ++ [.successThreshold 0]))).map
        (fun cb => (cb.state, cb.counter, cb.timer)) =
      (run sigs (NewWith (cfgs ++ [.successThreshold 1]))).map
        (fun cb => (cb.state, cb.counter, cb.timer)) := by
  refine ⟨?_, ?_, ?_, ?_⟩
  · intro cb hs hth
    simp [Fail, hs, hth]
  · intro cb hs hth
    simp [Success, hs, hth]
  · apply run_sameUpToZero
    · rw [NewWith_append, NewWith_append]
      simp [sameUpToZero, config.toOption, WithFailureThreshold]
    · apply NewWith_counterInv
      intro c hc
      rcases List.mem_append.mp hc with h | h
      · exact hr c h
      · simp only [List.mem_singleton] at h
        subst h
        decide
  · apply run_sameUpToZero
    · rw [NewWith_append, NewWith_append]
      simp [sameUpToZero, config.toOption, WithSuccessThreshold]
    · apply NewWith_counterInv
      intro c hc
      rcases List.mem_append.mp hc with h | h
      · exact hr c h
      · simp only [List.mem_singleton] at h
        subst h
        decide

/-! ## Each counter matters only in its own state -/

theorem step_agreeExceptFailure (sig : signal) (a b : CircuitBreaker)
    (hrel : a = b ∨ (agreeExceptFailure a b ∧ a.state ≠ .closed)) :
    (step sig a = none ∧ step sig b = none) ∨
    ∃ ra rb, step sig a = some ra ∧ step sig b = some rb ∧
      (ra.1 = rb.1 ∨ (agreeExceptFailure ra.1 rb.1 ∧ ra.1.state ≠ .closed)) := by
  rcases hrel with rfl | ⟨hag, hne⟩
  · cases h : step sig a with
    | none => exact Or.inl ⟨rfl, rfl⟩
    | some r => exact Or.inr ⟨r, r, rfl, rfl, Or.inl rfl⟩
  · obtain ⟨⟨sa, fa⟩, sta, sTa, fTa, da, ta⟩ := a
    obtain ⟨⟨sb, fb⟩, stb, sTb, fTb, db, tb⟩ := b
    simp only [agreeExceptFailure] at hag
    obtain ⟨rfl, rfl, rfl, rfl, rfl, rfl⟩ := hag
    simp only at hne
    cases sig with
    | fail =>
      right
      refine ⟨_, _, rfl, rfl, ?_⟩
      cases sta with
      | opened => right; simp [Fail, agreeExceptFailure]
      | halfopened => right; simp [Fail, agreeExceptFailure]
      | closed => exact absurd rfl hne
    | success =>
      right
      refine ⟨_, _, rfl, rfl, ?_⟩
      cases sta with
      | opened => right; simp [Success, agreeExceptFailure]
      | closed => exact absurd rfl hne
      | halfopened =>
        by_cases hth : (sa + 1) % uint64Size ≥ sTa
        · left; simp [Success, counter.Success, hth, counter.ResetFail]
        · right; simp [Success, counter.Success, hth, agreeExceptFailure]
    | reset =>
      right
      refine ⟨_, _, rfl, rfl, ?_⟩
      left
      cases ta <;> simp [Reset, counter.ResetSuccess, counter.ResetFail]
    | timerFired =>
      cases ta with
      | none => left; simp [step]
      | some t =>
        right
        refine ⟨_, _, rfl, rfl, ?_⟩
        right
        cases hfn : t.fn
        simp [callback.call, timeout, agreeExceptFailure, counter.ResetSuccess]

theorem step_agreeExceptSuccess (sig : signal) (a b : CircuitBreaker)
    (hrel : a = b ∨ (agreeExceptSuccess a b ∧ a.state ≠ .halfopened)) :
    (step sig a = none ∧ step sig b = none) ∨
    ∃ ra rb, step sig a = some ra ∧ step sig b = some rb ∧
      (ra.1 = rb.1 ∨ (agreeExceptSuccess ra.1 rb.1 ∧ ra.1.state ≠ .halfopened)) := by
  rcases hrel with rfl | ⟨hag, hne⟩
  · cases h : step sig a with
    | none => exact Or.inl ⟨rfl, rfl⟩
    | some r => exact Or.inr ⟨r, r, rfl, rfl, Or.inl rfl⟩
  · obtain ⟨⟨sa, fa⟩, sta, sTa, fTa, da, ta⟩ := a
    obtain ⟨⟨sb, fb⟩, stb, sTb, fTb, db, tb⟩ := b
    simp only [agreeExceptSuccess] at hag
    obtain ⟨rfl, rfl, rfl, rfl, rfl, rfl⟩ := hag
    simp only at hne
    cases sig with
    | fail =>
      right
      refine ⟨_, _, rfl, rfl, ?_⟩
      right
      cases sta with
      | opened => simp [Fail, agreeExceptSuccess]
      | halfopened => exact absurd rfl hne
      | closed =>
        by_cases hth : (fa + 1) % uint64Size ≥ fTa
        · simp [Fail, counter.Fail, hth, agreeExceptSuccess]
        · simp [Fail, counter.Fail, hth, agreeExceptSuccess]
    | success =>
      right
      refine ⟨_, _, rfl, rfl, ?_⟩
      right
      cases sta with
      | opened => simp [Success, agreeExceptSuccess]
      | closed => simp [Success, agreeExceptSuccess]
      | halfopened => exact absurd rfl hne
    | reset =>
      right
      refine ⟨_, _, rfl, rfl, ?_⟩
      left
      cases ta <;> simp [Reset, counter.ResetSuccess, counter.ResetFail]
    | timerFired =>
      cases ta with
      | none => left; simp [step]
      | some t =>
        right
        refine ⟨_, _, rfl, rfl, ?_⟩
        left
        cases hfn : t.fn
        simp [callback.call, timeout, counter.ResetSuccess]

theorem run_agreeExceptFailure (sigs : List signal) (a b : CircuitBreaker)
    (hrel : a = b ∨ (agreeExceptFailure a b ∧ a.state ≠ .closed)) :
    (run sigs a).map observe = (run sigs b).map observe := by
  induction sigs generalizing a b with
  | nil =>
    rcases hrel with rfl | ⟨⟨h1, _, _, _, _, h6⟩, _⟩
    · rfl
    · simp [run, observe, IsAvail, h1, h6]
  | cons sig sigs ih =>
    rcases step_agreeExceptFailure sig a b hrel with ⟨h1, h2⟩ | ⟨ra, rb, h1, h2, h3⟩
    · simp [run, h1, h2]
    · simp only [run, h1, h2]
      exact ih ra.1 rb.1 h3

theorem run_agreeExceptSuccess (sigs : List signal) (a b : CircuitBreaker)
    (hrel : a = b ∨ (agreeExceptSuccess a b ∧ a.state ≠ .halfopened)) :
    (run sigs a).map observe = (run sigs b).map observe := by
  induction sigs generalizing a b with
  | nil =>
    rcases hrel with rfl | ⟨⟨h1, _, _, _, _, h6⟩, _⟩
    · rfl
    · simp [run, observe, IsAvail, h1, h6]
  | cons sig sigs ih =>
    rcases step_agreeExceptSuccess sig a b hrel with ⟨h1, h2⟩ | ⟨ra, rb, h1, h2, h3⟩
    · simp [run, h1, h2]
    · simp only [run, h1, h2]
      exact ih ra.1 rb.1 h3

/-- C18: (a) two breakers that are both halfopened or both opened and agree on
everything except the failure counter, and (b) two breakers that are both
closed or both opened and agree on everything except the success counter, show
the same state, the same `IsAvail` answer and the same timer presence after
every common sequence of `Fail`, `Success`, `Reset` and timer-fired steps (and a
timer step that is not enabled for one is not enabled for the other). -/
theorem counter_relevance (a b : CircuitBreaker) (sigs : List signal) :
    (agreeExceptFailure a b → (a.state = .halfopened ∨ a.state = .opened) →
      (run sigs a).map observe = (run sigs b).map observe) ∧
    (agreeExceptSuccess a b → (a.state = .closed ∨ a.state = .opened) →
      (run sigs a).map observe = (run sigs b).map observe) := by
  constructor
  · intro hag hst
    apply run_agreeExceptFailure
    right
    refine ⟨hag, ?_⟩
    rcases hst with h | h <;> rw [h] <;> decide
  · intro hag hst
    apply run_agreeExceptSuccess
    right
    refine ⟨hag, ?_⟩
    rcases hst with h | h <;> rw [h] <;> decide

/-! ## Failures are counted cumulatively -/

theorem run_fail_success_opened (sigs : List signal) (cb : CircuitBreaker)
    (hsigs : ∀ x ∈ sigs, x = signal.fail ∨ x = signal.success) (hs : cb.state = .opened) :
    run sigs cb = some cb := by
  induction sigs with
  | nil => rfl
  | cons sig sigs ih =>
    have htl := ih (fun x hx => hsigs x (List.mem_cons_of_mem _ hx))
    rcases hsigs sig (List.mem_cons_self _ _) with rfl | rfl
    · simpa [run, step, Fail, hs] using htl
    · simpa [run, step, Success, hs] using htl

theorem run_fail_success_closed (sigs : List signal) (cb : CircuitBreaker)
    (hsigs : ∀ x ∈ sigs, x = signal.fail ∨ x = signal.success) (hs : cb.state = .closed)
    (hf : cb.failureThreshold < uint64Size) (hc : cb.counter.failure < cb.failureThreshold) :
    ∃ cb1, run sigs cb = some cb1 ∧
      (cb1.state = .opened ↔ cb.failureThreshold ≤ cb.counter.failure + sigs.count .fail) := by
  induction sigs generalizing cb with
  | nil =>
    refine ⟨cb, rfl, ?_⟩
    simp only [List.count_nil, Nat.add_zero]
    constructor
    · intro h
      rw [hs] at h
      exact absurd h (by decide)
    · intro h
      omega
  | cons sig sigs ih =>
    have hsigs1 : ∀ x ∈ sigs, x = signal.fail ∨ x = signal.success :=
      fun x hx => hsigs x (List.mem_cons_of_mem _ hx)
    rcases hsigs sig (List.mem_cons_self _ _) with rfl | rfl
    · have hmod : (cb.counter.failure + 1) % uint64Size = cb.counter.failure + 1 :=
        Nat.mod_eq_of_lt (by omega)
      by_cases hth : cb.counter.failure + 1 ≥ cb.failureThreshold
      · have hF : (Fail cb).1.state = .opened := by
          simp [Fail, hs, counter.Fail, hmod, hth]
        refine ⟨(Fail cb).1, ?_, ?_⟩
        · simpa [run, step] using run_fail_success_opened sigs _ hsigs1 hF
        · simp only [hF, List.count_cons_self, true_iff]
          omega
      · have hF : (Fail cb).1 =
            { cb with counter := { cb.counter with failure := cb.counter.failure + 1 } } := by
          simp [Fail, hs, counter.Fail, hmod, hth]
        obtain ⟨cb1, h1, h2⟩ := ih (Fail cb).1 hsigs1 (by rw [hF]; exact hs)
          (by rw [hF]; exact hf) (by rw [hF]; simp; omega)
        refine ⟨cb1, by simpa [run, step] using h1, ?_⟩
        rw [h2, hF]
        simp only [List.count_cons_self]
        constructor <;> intro h <;> omega
    · obtain ⟨cb1, h1, h2⟩ := ih cb hsigs1 hs hf hc
      refine ⟨cb1, by simpa [run, step, Success, hs] using h1, ?_⟩
      rw [h2]
      simp

/-- C20: failures are counted cumulatively while closed. For a breaker
freshly built by `New` from the exported options, with failure threshold `f`
(a `uint64`, at least 1), every finite sequence of `Fail` and `Success` signals
runs to the end, and the final state is opened if and only if the sequence
contains at least `f` `Fail` signals, wherever the `Success` signals stand. -/
theorem fail_success_cumulative (cfgs : List config) (f : Nat) (sigs : List signal)
    (hf1 : 1 ≤ f) (hf : f < uint64Size) (hth : (NewWith cfgs).failureThreshold = f)
    (hsigs : ∀ x ∈ sigs, x = signal.fail ∨ x = signal.success) :
    ∃ cb, run sigs (NewWith cfgs) = some cb ∧ (cb.state = .opened ↔ f ≤ sigs.count .fail) := by
  subst hth
  have hc : (NewWith cfgs).counter.failure = 0 := by rw [NewWith_counter]
  obtain ⟨cb, h1, h2⟩ := run_fail_success_closed sigs (NewWith cfgs) hsigs
    (NewWith_state cfgs) hf (by omega)
  refine ⟨cb, h1, ?_⟩
  rw [h2, hc, Nat.zero_add]

/-! ## The full trip-and-recover cycle -/

theorem run_replicate_fail (n : Nat) (cb : CircuitBreaker) :
    run (List.replicate n .fail) cb = some (failN n cb) := by
  induction n generalizing cb with
  | zero => rfl
  | succ n ih => simpa [List.replicate_succ, run, step, failN] using ih (Fail cb).1

theorem run_replicate_success (n : Nat) (cb : CircuitBreaker) :
    run (List.replicate n .success) cb = some (successN n cb) := by
  induction n generalizing cb with
  | zero => rfl
  | succ n ih => simpa [List.replicate_succ, run, step, successN] using ih (Success cb).1

theorem failN_threshold_eq (cb : CircuitBreaker) (hs : cb.state = .closed)
    (hc : cb.counter.failure = 0) (hf1 : 1 ≤ cb.failureThreshold)
    (hf : cb.failureThreshold < uint64Size) :
    failN cb.failureThreshold cb =
      { cb with
        counter := { cb.counter with failure := cb.failureThreshold }
        state := .opened
        timer := some (afterFunc cb.timeoutDuration .cbTimeout) } := by
  have h := failN_add (cb.failureThreshold - 1) 1 cb
  have hsub : cb.failureThreshold - 1 + 1 = cb.failureThreshold := by omega
  rw [hsub] at h
  rw [h, failN_below _ cb hs hf (by omega)]
  have hmod : cb.failureThreshold % uint64Size = cb.failureThreshold := Nat.mod_eq_of_lt hf
  simp [failN, Fail, hs, counter.Fail, hc, hsub, hmod]

theorem cycle_from_closed (cb : CircuitBreaker) (hs : cb.state = .closed)
    (hc : cb.counter.failure = 0) (hf1 : 1 ≤ cb.failureThreshold)
    (hf : cb.failureThreshold < uint64Size) (hs1 : 1 ≤ cb.successThreshold)
    (hsT : cb.successThreshold < uint64Size) :
    ∃ c1 c2 c3 c4 c5 c6 : CircuitBreaker,
      run (List.replicate cb.failureThreshold .fail) cb = some c1 ∧ c1.state = .opened ∧
      run [.timerFired] c1 = some c2 ∧ c2.state = .halfopened ∧ c2.counter.success = 0 ∧
      run [.fail] c2 = some c3 ∧ c3.state = .opened ∧
      run [.timerFired] c3 = some c4 ∧ c4.state = .halfopened ∧
      run (List.replicate (cb.successThreshold - 1) .success) c4 = some c5 ∧
      c5.state = .halfopened ∧
      run [.success] c5 = some c6 ∧ c6.state = .closed ∧ c6.counter.failure = 0 ∧
      c6.timer = none := by
  have e1 := failN_threshold_eq cb hs hc hf1 hf
  obtain ⟨⟨sc, fc⟩, st, sT, fT, d, t⟩ := cb
  simp only at hs hc hf1 hf hs1 hsT e1
  subst hs hc
  have hsub : sT - 1 + 1 = sT := by omega
  have hmod : sT % uint64Size = sT := Nat.mod_eq_of_lt hsT
  have e5 := successN_below (sT - 1)
    { counter := { success := 0, failure := fT }, state := .halfopened, successThreshold := sT,
      failureThreshold := fT, timeoutDuration := d, timer := none } rfl hsT
    (by simp only; omega)
  simp only [Nat.zero_add] at e5
  refine ⟨{ counter := { success := sc, failure := fT }, state := .opened,
            successThreshold := sT, failureThreshold := fT, timeoutDuration := d,
            timer := some (afterFunc d .cbTimeout) },
          { counter := { success := 0, failure := fT }, state := .halfopened,
            successThreshold := sT, failureThreshold := fT, timeoutDuration := d,
            timer := none },
          { counter := { success := 0, failure := fT }, state := .opened,
            successThreshold := sT, failureThreshold := fT, timeoutDuration := d,
            timer := some (afterFunc d .cbTimeout) },
          { counter := { success := 0, failure := fT }, state := .halfopened,
            successThreshold := sT, failureThreshold := fT, timeoutDuration := d,
            timer := none },
          { counter := { success := sT - 1, failure := fT }, state := .halfopened,
            successThreshold := sT, failureThreshold := fT, timeoutDuration := d,
            timer := none },
          { counter := { success := sT, failure := 0 }, state := .closed,
            successThreshold := sT, failureThreshold := fT, timeoutDuration := d,
            timer := none },
          ?_, rfl, ?_, rfl, rfl, ?_, rfl, ?_, rfl, ?_, rfl, ?_, rfl, rfl, rfl⟩
  · rw [run_replicate_fail, e1]
  · simp [run, step, afterFunc, callback.call, timeout, counter.ResetSuccess]
  · simp [run, step, Fail]
  · simp [run, step, afterFunc, callback.call, timeout, counter.ResetSuccess]
  · rw [run_replicate_success, e5]
  · simp [run, step, Success, counter.Success, counter.ResetFail, hsub, hmod]

/-- C15: the full trip-and-recover cycle. For a breaker freshly built by `New`
from the exported options, with failure threshold `f` and success threshold `s`
(both `uint64`, both at least 1) and any timeout duration: `f` calls of `Fail`
leave it opened; the timer firing leaves it halfopened with success counter 0;
one `Fail` leaves it opened again; the new timer firing leaves it halfopened;
`s - 1` calls of `Success` leave it halfopened; one more `Success` leaves it
closed with failure counter 0 and a nil timer handle. -/
theorem trip_and_recover (cfgs : List config) (f s : Nat) (hf1 : 1 ≤ f)
    (hf : f < uint64Size) (hs1 : 1 ≤ s) (hs : s < uint64Size)
    (hthf : (NewWith cfgs).failureThreshold = f)
    (hths : (NewWith cfgs).successThreshold = s) :
    ∃ c1 c2 c3 c4 c5 c6 : CircuitBreaker,
      run (List.replicate f .fail) (NewWith cfgs) = some c1 ∧ c1.state = .opened ∧
      run [.timerFired] c1 = some c2 ∧ c2.state = .halfopened ∧ c2.counter.success = 0 ∧
      run [.fail] c2 = some c3 ∧ c3.state = .opened ∧
      run [.timerFired] c3 = some c4 ∧ c4.state = .halfopened ∧
      run (List.replicate (s - 1) .success) c4 = some c5 ∧ c5.state = .halfopened ∧
      run [.success] c5 = some c6 ∧ c6.state = .closed ∧ c6.counter.failure = 0 ∧
      c6.timer = none := by
  subst hthf hths
  exact cycle_from_closed (NewWith cfgs) (NewWith_state cfgs)
    (by rw [NewWith_counter]) hf1 hf hs1 hs

/-- The test `TestCircuitBreaker` passes: the cycle at the defaults
(thresholds 3, timeout 30 seconds), with the timer fast-forwarded by 29 seconds,
1 second and 30 seconds. -/
theorem TestCircuitBreaker_passes : TestCircuitBreaker = true := by
  decide

/-! ## The cooldown under the controllable timer -/

theorem wrapInt64_of_range (x : Int) (h0 : 0 ≤ x) (h1 : x < 2 ^ 63) : wrapInt64 x = x := by
  unfold wrapInt64
  rw [Int.emod_eq_of_lt (by omega) (by omega)]
  omega

theorem fastForwards_append (as bs : List Duration) (w : testTimer × CircuitBreaker) :
    fastForwards (as ++ bs) w = fastForwards bs (fastForwards as w) := by
  induction as generalizing w with
  | nil => rfl
  | cons a as ih => simp [fastForwards, ih]

theorem FastForward_below (t : testTimer) (a : Int) (cb : CircuitBreaker)
    (hcur : (0 : Int) ≤ t.cur) (ha : 0 ≤ a) (hlt : (t.cur + a : Int) < t.d)
    (hd : (t.d : Int) < 2 ^ 63) :
    t.FastForward a cb = ({ t with cur := t.cur + a }, cb) := by
  simp only [Duration] at *
  have hw : wrapInt64 (t.cur + a) = t.cur + a := wrapInt64_of_range _ (by omega) (by omega)
  have hn : ¬ t.d ≤ t.cur + a := Int.not_le.mpr hlt
  simp [testTimer.FastForward, hw, hn]

theorem FastForward_reached (t : testTimer) (a : Int) (cb : CircuitBreaker)
    (hcur : (0 : Int) ≤ t.cur) (ha : 0 ≤ a) (hge : (t.d : Int) ≤ t.cur + a)
    (hfit : (t.cur + a : Int) < 2 ^ 63) :
    t.FastForward a cb = ({ t with cur := t.cur + a }, (t.afterFunc.call cb).1) := by
  simp only [Duration] at *
  have hw : wrapInt64 (t.cur + a) = t.cur + a := wrapInt64_of_range _ (by omega) hfit
  simp [testTimer.FastForward, hw, hge, testTimer.Stop]

theorem fastForwards_below (as : List Int) (t : testTimer) (cb : CircuitBreaker)
    (hnn : ∀ x ∈ as, 0 ≤ x) (hcur : (0 : Int) ≤ t.cur) (hlt : (t.cur + as.sum : Int) < t.d)
    (hd : (t.d : Int) < 2 ^ 63) :
    fastForwards as (t, cb) = ({ t with cur := t.cur + as.sum }, cb) := by
  simp only [Duration] at *
  induction as generalizing t with
  | nil => simp [fastForwards]
  | cons a as ih =>
    have ha : 0 ≤ a := hnn a (List.mem_cons_self _ _)
    have hnn1 : ∀ x ∈ as, 0 ≤ x := fun x hx => hnn x (List.mem_cons_of_mem _ hx)
    have hsum : 0 ≤ as.sum := List.sum_nonneg hnn1
    simp only [List.sum_cons] at hlt
    simp only [fastForwards]
    rw [FastForward_below t a cb hcur ha (by simp only [Duration]; omega) hd,
      ih { t with cur := t.cur + a } hnn1 (by simp only [Duration]; omega)
        (by simp only [Duration]; omega) hd]
    simp [List.sum_cons, Int.add_assoc]

/-- C11 (as amended): a breaker has just entered opened, so that its handle is
the test timer created for its `timeoutDuration` `d`. For every sequence of
non-negative fast-forward amounts whose cumulative amount is below `d`, the
breaker is unchanged, hence still opened with `IsAvail` false. The first
fast-forward that makes the cumulative amount reach `d`, provided that amount
still fits a `Duration` (is below `2^63` nanoseconds), runs the timeout handler:
the state becomes halfopened, `IsAvail` is true and the success counter is 0. -/
theorem FastForward_cooldown (cb : CircuitBreaker) (as : List Int) (a : Int)
    (hs : cb.state = .opened)
    (ht : cb.timer = some (afterFunc cb.timeoutDuration .cbTimeout))
    (hd : (cb.timeoutDuration : Int) < 2 ^ 63) (hnn : ∀ x ∈ as, 0 ≤ x)
    (hlt : as ≠ [] → as.sum < (cb.timeoutDuration : Int)) :
    (fastForwards as ((afterFunc cb.timeoutDuration .cbTimeout).asTestTimer, cb)).2 = cb ∧
    IsAvail cb = false ∧
    (0 ≤ a → (cb.timeoutDuration : Int) ≤ as.sum + a → as.sum + a < 2 ^ 63 →
      (fastForwards (as ++ [a])
        ((afterFunc cb.timeoutDuration .cbTimeout).asTestTimer, cb)).2 = (timeout cb).1 ∧
      (timeout cb).1.state = .halfopened ∧
      IsAvail (timeout cb).1 = true ∧
      (timeout cb).1.counter.success = 0) := by
  have _ := ht
  have hsum : 0 ≤ as.sum := List.sum_nonneg hnn
  have hbelow : fastForwards as ((afterFunc cb.timeoutDuration .cbTimeout).asTestTimer, cb) =
      ({ d := cb.timeoutDuration, cur := as.sum, afterFunc := .cbTimeout }, cb) := by
    by_cases hnil : as = []
    · subst hnil
      simp [fastForwards, timer.asTestTimer, testAfterFunc, afterFunc]
    · rw [fastForwards_below as _ cb hnn (by simp [timer.asTestTimer, testAfterFunc])
        (by simpa [timer.asTestTimer, testAfterFunc, afterFunc] using hlt hnil)
        (by simpa [timer.asTestTimer, testAfterFunc, afterFunc] using hd)]
      simp [timer.asTestTimer, testAfterFunc, afterFunc]
  refine ⟨by rw [hbelow], by simp [IsAvail, hs], ?_⟩
  intro ha hge hfit
  refine ⟨?_, by simp [timeout], by simp [IsAvail, timeout],
    by simp [timeout, counter.ResetSuccess]⟩
  rw [fastForwards_append, hbelow]
  simp only [fastForwards]
  rw [FastForward_reached _ a cb hsum ha hge hfit]
  simp [callback.call]

theorem FastForward_cooldown_witness :
    (fastForwards [29 * Second]
      ((afterFunc (30 * Second) .cbTimeout).asTestTimer, failN 3 (New []))).2 =
      failN 3 (New []) ∧
    IsAvail (failN 3 (New [])) = false ∧
    (fastForwards [29 * Second, 1 * Second]
      ((afterFunc (30 * Second) .cbTimeout).asTestTimer, failN 3 (New []))).2 =
      (timeout (failN 3 (New []))).1 ∧
    (timeout (failN 3 (New []))).1.state = .halfopened :=
  ⟨(FastForward_cooldown (failN 3 (New [])) [29 * Second] (1 * Second) (by decide)
      (by decide) (by decide) (by decide) (by decide)).1,
    (FastForward_cooldown (failN 3 (New [])) [29 * Second] (1 * Second) (by decide)
      (by decide) (by decide) (by decide) (by decide)).2.1,
    ((FastForward_cooldown (failN 3 (New [])) [29 * Second] (1 * Second) (by decide)
      (by decide) (by decide) (by decide) (by decide)).2.2
      (by decide) (by decide) (by decide)).1,
    ((FastForward_cooldown (failN 3 (New [])) [29 * Second] (1 * Second) (by decide)
      (by decide) (by decide) (by decide) (by decide)).2.2
      (by decide) (by decide) (by decide)).2.1⟩

/-- Counterexample to C11 as stated: with `d` = 30 seconds, fast-forwarding by 1 nanosecond
and then by `2^63 - 1` nanoseconds, both non-negative, brings the cumulative
amount to `2^63` nanoseconds, far above `d`, but the `int64` sum in `t.cur`
wraps to a negative value, the handler does not run and the breaker stays
opened with `IsAvail` false. -/
theorem FastForward_overflow_counterexample :
    (failN 3 (New [])).state = .opened ∧
    (failN 3 (New [])).timer = some (afterFunc (30 * Second) .cbTimeout) ∧
    (0 : Int) ≤ 1 ∧ (0 : Int) ≤ 9223372036854775807 ∧
    (1 : Int) < 30 * Second ∧ 30 * Second ≤ (1 : Int) + 9223372036854775807 ∧
    (fastForwards [1, 9223372036854775807]
      ((afterFunc (30 * Second) .cbTimeout).asTestTimer, failN 3 (New []))).1.cur =
      -9223372036854775808 ∧
    (fastForwards [1, 9223372036854775807]
      ((afterFunc (30 * Second) .cbTimeout).asTestTimer, failN 3 (New []))).2.state = .opened ∧
    IsAvail (fastForwards [1, 9223372036854775807]
      ((afterFunc (30 * Second) .cbTimeout).asTestTimer, failN 3 (New []))).2 = false := by
  decide

/-! ## Instances at concrete inputs -/

theorem zero_threshold_witness :
    (run [.fail, .timerFired, .success] (NewWith ([] ++ [.failureThreshold 0]))).map
        (fun cb => (cb.state, cb.counter, cb.timer)) =
      (run [.fail, .timerFired, .success] (NewWith ([] ++ [.failureThreshold 1]))).map
        (fun cb => (cb.state, cb.counter, cb.timer)) ∧
    (Fail (NewWith [.failureThreshold 0])).1.state = .opened :=
  ⟨(zero_threshold [] [.fail, .timerFired, .success] (by decide)).2.2.1,
    (zero_threshold [] [.fail, .timerFired, .success] (by decide)).1
      (NewWith [.failureThreshold 0]) (by decide) (by decide)⟩

theorem trip_and_recover_witness :
    ∃ c1 c2 c3 c4 c5 c6 : CircuitBreaker,
      run (List.replicate 3 .fail) (NewWith []) = some c1 ∧ c1.state = .opened ∧
      run [.timerFired] c1 = some c2 ∧ c2.state = .halfopened ∧ c2.counter.success = 0 ∧
      run [.fail] c2 = some c3 ∧ c3.state = .opened ∧
      run [.timerFired] c3 = some c4 ∧ c4.state = .halfopened ∧
      run (List.replicate (3 - 1) .success) c4 = some c5 ∧ c5.state = .halfopened ∧
      run [.success] c5 = some c6 ∧ c6.state = .closed ∧ c6.counter.failure = 0 ∧
      c6.timer = none :=
  trip_and_recover [] 3 3 (by decide) (by decide) (by decide) (by decide) rfl rfl

theorem counter_relevance_witness :
    (run [.success, .success, .success, .fail]
        { counter := { success := 0, failure := 3 }, state := .halfopened,
          successThreshold := 3, failureThreshold := 3, timeoutDuration := 30 * Second,
          timer := none }).map observe =
      (run [.success, .success, .success, .fail]
        { counter := { success := 0, failure := 9 }, state := .halfopened,
          successThreshold := 3, failureThreshold := 3, timeoutDuration := 30 * Second,
          timer := none }).map observe ∧
    (run [.fail, .fail, .timerFired, .success]
        { counter := { success := 1, failure := 1 }, state := .closed,
          successThreshold := 3, failureThreshold := 3, timeoutDuration := 30 * Second,
          timer := none }).map observe =
      (run [.fail, .fail, .timerFired, .success]
        { counter := { success := 2, failure := 1 }, state := .closed,
          successThreshold := 3, failureThreshold := 3, timeoutDuration := 30 * Second,
          timer := none }).map observe :=
  ⟨(counter_relevance _ _ [.success, .success, .success, .fail]).1 (by decide)
      (Or.inl rfl),
    (counter_relevance _ _ [.fail, .fail, .timerFired, .success]).2 (by decide)
      (Or.inl rfl)⟩

theorem reachable_counter_bound_witness :
    run [.fail, .fail] (NewWith [.failureThreshold 5]) =
      some (failN 2 (NewWith [.failureThreshold 5])) ∧
    (failN 2 (NewWith [.failureThreshold 5])).state = .closed ∧
    (failN 2 (NewWith [.failureThreshold 5])).counter.failure <
      max (failN 2 (NewWith [.failureThreshold 5])).failureThreshold 1 :=
  ⟨by decide, by decide,
    (reachable_counter_bound [.failureThreshold 5] [.fail, .fail]
      (failN 2 (NewWith [.failureThreshold 5])) (by decide) (by decide)).1 (by decide)⟩

theorem fail_success_cumulative_witness :
    ∃ cb, run [.fail, .success, .fail, .success, .success, .fail] (NewWith []) = some cb ∧
      (cb.state = .opened ↔
        3 ≤ List.count signal.fail [.fail, .success, .fail, .success, .success, .fail]) :=
  fail_success_cumulative [] 3 [.fail, .success, .fail, .success, .success, .fail]
    (by decide) (by decide) rfl (by decide)

end circuitbreaker
